import Mathlib

/-!
Shallow embedding of the Idleon Spice Optimizer core (src/models.py,
src/simulation.py, src/utils.py, src/constants.py).

Python floats are modelled as exact rationals (ℚ); Python ints as ℤ/ℕ.
The generator `simulate_progressive` is modelled as a fuel-indexed loop
producing the list of tuples the generator yields; the fuel bounds the
number of loop iterations and every theorem is quantified over all fuels,
so no behaviour depends on a particular fuel value.
-/

namespace SpiceOptimizer

/-! Data model, from src/models.py and src/constants.py. -/

structure Genetic where
  id : ℕ
  name : String
deriving DecidableEq

structure Pet where
  genetic : Genetic
  power : Option ℚ
deriving DecidableEq

structure Territory where
  name : String
  forage : ℕ
  fight : ℕ
deriving DecidableEq

structure Team where
  name : String
  pets : List Pet
  territory : Option String := none
  manual_speed : Option ℚ := none
deriving DecidableEq

def MAX_TEAM_SIZE : ℕ := 4

def Team.size (t : Team) : ℕ := t.pets.length

def Team.speed (t : Team) : ℚ :=
  match t.manual_speed with
  | some s => s
  | none => (t.pets.map (fun pet => pet.power.getD 0)).sum

/-- Team validation (`Team.__post_init__`) as a checked constructor: the dataclass
raises `ValueError` when the team has more than `MAX_TEAM_SIZE` pets, or when
`manual_speed` is unset and some pet has no power. -/
def mkTeam (name : String) (pets : List Pet) (territory : Option String)
    (manual_speed : Option ℚ) : Except String Team :=
  if MAX_TEAM_SIZE < pets.length then
    Except.error "A team cannot contain more than 4 pets."
  else if manual_speed.isNone && pets.any (fun pet => pet.power.isNone) then
    Except.error "All pets must have power if manual speed is not set."
  else
    Except.ok { name := name, pets := pets, territory := territory,
                manual_speed := manual_speed }

/-! Simulation, from src/simulation.py. -/

def ALCHEMIC : String := "Alchemic"
def MONOLITHIC : String := "Monolithic"

def count_genetic (team : Team) (gname : String) : ℕ :=
  (team.pets.filter (fun pet => pet.genetic.name == gname)).length

/-- Requirement curve `calculate_forage_requirement`; the 0.02 literal is the rational 2/100. -/
def calculate_forage_requirement (base : ℚ) (fills : ℕ) (monolithic_count : ℕ) : ℚ :=
  let bonus : ℚ := 1 + (2 / 100) / ((monolithic_count : ℚ) / 5 + 1)
  (base + (fills : ℚ)) * bonus ^ fills

/-- The per-team mutable dict built by `init_state` inside `simulate_progressive`. -/
structure TState where
  spice : ℚ
  fills : ℕ
  progress : ℚ
  speed : ℚ
  alchemic : ℕ
  monolithic : ℕ
deriving DecidableEq

def init_state (team : Team) : TState :=
  { spice := 0, fills := 0, progress := 0, speed := team.speed,
    alchemic := count_genetic team ALCHEMIC,
    monolithic := count_genetic team MONOLITHIC }

def TState.req (base : ℚ) (s : TState) : ℚ :=
  calculate_forage_requirement base s.fills s.monolithic

/-- Time to the next fill, `next_fill_time`; `float("inf")` is modelled as `none`. -/
def next_fill_time (base : ℚ) (s : TState) : Option ℚ :=
  if s.speed ≤ 0 then none
  else some ((TState.req base s - s.progress) / s.speed)

/-- The per-team body of the `for state in (a, b)` update inside the loop. -/
def stepTeam (base : ℚ) (dt : ℚ) (s : TState) : TState :=
  let progress := s.progress + s.speed * dt
  if TState.req base s ≤ progress then
    { s with fills := s.fills + 1,
             spice := s.spice + (1 + (1 / 2) * (s.alchemic : ℚ)),
             progress := 0 }
  else { s with progress := progress }

/-- Python `min` on values that may be `float("inf")` (`none`). -/
def optMin : Option ℚ → Option ℚ → Option ℚ
  | none, y => y
  | some x, none => some x
  | some x, some y => some (min x y)

/-- One tuple yielded by the generator:
`(timeline, a_yield, b_yield, breakeven)`. -/
abbrev Emission := List ℚ × List ℚ × List ℚ × Option ℚ

/-- The local variables of `simulate_progressive`'s while loop. -/
structure Sim where
  a : TState
  b : TState
  t : ℚ
  timeline : List ℚ
  a_yield : List ℚ
  b_yield : List ℚ
  breakeven : Option ℚ
deriving DecidableEq

def emit (s : Sim) : Emission := (s.timeline, s.a_yield, s.b_yield, s.breakeven)

/-- One iteration of the while loop up to (and including) the state update and
the appends; `none` when the loop breaks this iteration (`dt` infinite, so `t`
becomes infinite and exceeds `max_hours`, or `t > max_hours` after `t += dt`).
The new `breakeven` field records the `breakeven is None and b > a` check made
right after the appends. -/
def simBody (base maxH : ℚ) (s : Sim) : Option Sim :=
  match optMin (next_fill_time base s.a) (next_fill_time base s.b) with
  | none => none
  | some dt =>
    let t := s.t + dt
    if maxH < t then none
    else
      let a := stepTeam base dt s.a
      let b := stepTeam base dt s.b
      some { a := a, b := b, t := t,
             timeline := s.timeline ++ [t],
             a_yield := s.a_yield ++ [a.spice],
             b_yield := s.b_yield ++ [b.spice],
             breakeven :=
               if s.breakeven = none ∧ a.spice < b.spice then some t
               else s.breakeven }

/-- The while loop of `simulate_progressive`, returning the list of yielded
tuples.  A step whose `breakeven is None and b > a` check fires is recognised
by `s.breakeven = none ∧ s'.breakeven ≠ none`; with `stop_at_breakeven` the
generator yields that step and returns. -/
def simLoop (base maxH : ℚ) (stop_at_breakeven : Bool) : ℕ → Sim → List Emission
  | 0, _ => []
  | fuel + 1, s =>
    if s.t ≤ maxH then
      match simBody base maxH s with
      | none => []
      | some s' =>
        if stop_at_breakeven ∧ s.breakeven = none ∧ s'.breakeven ≠ none then
          [emit s']
        else
          emit s' :: simLoop base maxH stop_at_breakeven fuel s'
    else []

/-- The simulator's entry state: `timeline = [0.0]`, `a_yield = [0.0]`,
`b_yield = [0.0]`, `breakeven = None`, `t = 0.0`. -/
def init_sim (team_a team_b : Team) : Sim :=
  { a := init_state team_a, b := init_state team_b, t := 0,
    timeline := [0], a_yield := [0], b_yield := [0], breakeven := none }

def simulate_progressive (territory : Territory) (team_a team_b : Team)
    (max_hours : ℚ) (stop_at_breakeven : Bool) (fuel : ℕ) : List Emission :=
  simLoop (territory.forage : ℚ) max_hours stop_at_breakeven fuel
    (init_sim team_a team_b)

/-! Display formatting, from src/utils.py. -/

/-- Python `round`: round half to even on the exact value. -/
def pyRound (q : ℚ) : ℤ :=
  let f := q.floor
  let frac := q - (f : ℚ)
  if frac < 1 / 2 then f
  else if 1 / 2 < frac then f + 1
  else if f % 2 = 0 then f else f + 1

/-- Python `int` on a float: truncation toward zero. -/
def pyInt (q : ℚ) : ℤ := if 0 ≤ q then ⌊q⌋ else -⌊-q⌋

/-- Time formatting `format_time`: Python `divmod` on ints with a positive divisor is
Euclidean division, and `if h:` tests h ≠ 0. -/
def format_time (hours : ℚ) : String :=
  let total_seconds := pyRound (hours * 3600)
  let h := total_seconds / 3600
  let remainder := total_seconds % 3600
  let m := remainder / 60
  let s := remainder % 60
  if h ≠ 0 then
    if m ≠ 0 then toString h ++ "h " ++ toString m ++ "m" else toString h ++ "h"
  else if m ≠ 0 then
    if s ≠ 0 then toString m ++ "m " ++ toString s ++ "s" else toString m ++ "m"
  else if s ≠ 0 then toString s ++ "s"
  else "0s"

/-- The spec's description of the time format, §6: rounding of total seconds
to the nearest integer, then a 3600/60 divmod chain over naturals (the spec
addresses nonnegative hours), rendering h/m/s with the stated omissions. -/
def specFormatTime (hours : ℚ) : String :=
  let total_seconds : ℕ := (pyRound (hours * 3600)).toNat
  let h := total_seconds / 3600
  let remainder := total_seconds % 3600
  let m := remainder / 60
  let s := remainder % 60
  if h ≠ 0 then
    if m ≠ 0 then toString h ++ "h " ++ toString m ++ "m" else toString h ++ "h"
  else if m ≠ 0 then
    if s ≠ 0 then toString m ++ "m " ++ toString s ++ "s" else toString m ++ "m"
  else if s ≠ 0 then toString s ++ "s"
  else "0s"

/-- Two-decimal fixed rendering, modelling Python float formatting
`"%.2f"` (round half to even) for the nonnegative values it is applied to. -/
def formatFixed2 (q : ℚ) : String :=
  let scaled := pyRound (q * 100)
  let ip := scaled / 100
  let fr := (scaled % 100).toNat
  let frStr := if fr < 10 then "0" ++ toString fr else toString fr
  toString ip ++ "." ++ frStr

/-- Two-decimal scientific rendering, modelling Python `"%.2E"` for the
values ≥ 1e24 it is applied to. -/
def formatSci2 (q : ℚ) : String :=
  let e := Nat.log 10 (⌊q⌋).toNat
  let scaled := pyRound (q / (10 : ℚ) ^ e * 100)
  let p := if 1000 ≤ scaled then (e + 1, pyRound (q / (10 : ℚ) ^ (e + 1) * 100))
           else (e, scaled)
  let fr := (p.2 % 100).toNat
  let frStr := if fr < 10 then "0" ++ toString fr else toString fr
  let eStr := if p.1 < 10 then "0" ++ toString p.1 else toString p.1
  toString (p.2 / 100) ++ "." ++ frStr ++ "E+" ++ eStr

/-- The `thresholds` list of `format_number`; `none` marks the scientific
branch. -/
def thresholds : List (ℚ × Option String) :=
  [((10 : ℚ) ^ 24, none), ((10 : ℚ) ^ 21, some "QQQ"), ((10 : ℚ) ^ 18, some "QQ"),
   ((10 : ℚ) ^ 15, some "Q"), ((10 : ℚ) ^ 12, some "T"), ((10 : ℚ) ^ 9, some "B"),
   ((10 : ℚ) ^ 6, some "M"), ((10 : ℚ) ^ 3, some "K")]

/-- The `for threshold, suffix in thresholds` loop of `format_number`; the
fall-through is Python `f"{int(number)}"`. -/
def formatWith (number : ℚ) : List (ℚ × Option String) → String
  | [] => toString (pyInt number)
  | (threshold, suffix) :: rest =>
    if threshold ≤ number then
      match suffix with
      | some sfx => formatFixed2 (number / threshold) ++ sfx
      | none => formatSci2 number
    else formatWith number rest

def format_number (number : ℚ) : String := formatWith number thresholds

/-! Concrete inputs used by counterexamples and witnesses. -/

def gForager : Genetic := { id := 1, name := "Forager" }
def gAlchemic : Genetic := { id := 5, name := "Alchemic" }

def petForager10 : Pet := { genetic := gForager, power := some 10 }
def petForager1 : Pet := { genetic := gForager, power := some 1 }
def petNoPower : Pet := { genetic := gForager, power := none }

def teamTen : Team := { name := "A", pets := [petForager10] }
def teamOne : Team := { name := "B", pets := [petForager1] }
def teamZero : Team := { name := "Z", pets := [], manual_speed := some 0 }

def tGrass : Territory := { name := "Grasslands", forage := 100, fight := 0 }
def tVoid : Territory := { name := "Void", forage := 0, fight := 0 }
def tSmall : Territory := { name := "Small", forage := 10, fight := 0 }

/-- Here `takeThrough p l` keeps elements up to and including the first one
satisfying `p`: the shape of a run that stops at its first breakeven step. -/
def takeThrough (p : α → Bool) : List α → List α
  | [] => []
  | x :: xs => if p x then [x] else x :: takeThrough p xs

/-! Helper lemmas about the requirement curve. -/

theorem req_eq (base : ℚ) (n m : ℕ) :
    calculate_forage_requirement base n m
      = (base + n) * (1 + 1 / (10 * ((m : ℚ) + 5))) ^ n := by
  have h2 : (1 : ℚ) + 2 / 100 / ((m : ℚ) / 5 + 1) = 1 + 1 / (10 * ((m : ℚ) + 5)) := by
    have h1 : ((m : ℚ) / 5 + 1) ≠ 0 := by positivity
    have h3 : (10 : ℚ) * ((m : ℚ) + 5) ≠ 0 := by positivity
    field_simp
    ring
  simp only [calculate_forage_requirement]
  rw [h2]

theorem delta_pos (m : ℕ) : 0 < 1 / (10 * ((m : ℚ) + 5)) := by positivity

theorem delta_le_one (m : ℕ) : 1 / (10 * ((m : ℚ) + 5)) ≤ 1 := by
  rw [div_le_one (by positivity)]
  have : (0 : ℚ) ≤ (m : ℚ) := Nat.cast_nonneg m
  linarith

/-- Upper bound `(1+x)^n ≤ 1 + (2^n - 1)·x` for `0 ≤ x ≤ 1`. -/
theorem pow_one_add_le (n : ℕ) (x : ℚ) (hx0 : 0 ≤ x) (hx1 : x ≤ 1) :
    (1 + x) ^ n ≤ 1 + (2 ^ n - 1) * x := by
  induction n with
  | zero => simp
  | succ k ih =>
    have h2 : (0 : ℚ) ≤ 2 ^ k - 1 := by
      have : (1 : ℚ) ≤ 2 ^ k := one_le_pow₀ (by norm_num)
      linarith
    have hsq : (2 ^ k - 1) * x * x ≤ (2 ^ k - 1) * x * 1 :=
      mul_le_mul_of_nonneg_left hx1 (mul_nonneg h2 hx0)
    calc (1 + x) ^ (k + 1) = (1 + x) ^ k * (1 + x) := by ring
    _ ≤ (1 + (2 ^ k - 1) * x) * (1 + x) :=
        mul_le_mul_of_nonneg_right ih (by linarith)
    _ ≤ 1 + (2 ^ (k + 1) - 1) * x := by ring_nf; ring_nf at hsq; linarith

/-- C7: for base ≥ 0 and cycle index n > 0, the forage requirement is strictly
decreasing in the monolithic count, always strictly greater than base + n, and
comes within any ε > 0 of base + n for a large enough monolithic count. -/
theorem C7_requirement_monolithic (base : ℚ) (hbase : 0 ≤ base) (n : ℕ) (hn : 0 < n) :
    (∀ m m' : ℕ, m < m' →
        calculate_forage_requirement base n m' < calculate_forage_requirement base n m)
    ∧ (∀ m : ℕ, base + n < calculate_forage_requirement base n m)
    ∧ (∀ ε : ℚ, 0 < ε → ∃ m : ℕ,
        calculate_forage_requirement base n m < base + n + ε) := by
  have hn' : (0 : ℚ) < (n : ℚ) := by exact_mod_cast hn
  have hbn : (0 : ℚ) < base + n := by linarith
  refine ⟨?_, ?_, ?_⟩
  · intro m m' hm
    rw [req_eq, req_eq]
    have hd : 1 / (10 * ((m' : ℚ) + 5)) < 1 / (10 * ((m : ℚ) + 5)) := by
      apply one_div_lt_one_div_of_lt (by positivity)
      have : (m : ℚ) < (m' : ℚ) := by exact_mod_cast hm
      linarith
    have hpow : (1 + 1 / (10 * ((m' : ℚ) + 5))) ^ n
        < (1 + 1 / (10 * ((m : ℚ) + 5))) ^ n :=
      pow_lt_pow_left₀ (by linarith) (by positivity) hn.ne'
    exact mul_lt_mul_of_pos_left hpow hbn
  · intro m
    rw [req_eq]
    have h1 : (1 : ℚ) < (1 + 1 / (10 * ((m : ℚ) + 5))) ^ n :=
      one_lt_pow₀ (by have := delta_pos m; linarith) hn.ne'
    nlinarith
  · intro ε hε
    obtain ⟨N, hN⟩ := exists_nat_gt ((base + n) * (2 ^ n - 1) / (10 * ε))
    refine ⟨N, ?_⟩
    rw [req_eq]
    have hδ0 : 0 < 1 / (10 * ((N : ℚ) + 5)) := delta_pos N
    have hδ1 : 1 / (10 * ((N : ℚ) + 5)) ≤ 1 := delta_le_one N
    have hpow : (1 + 1 / (10 * ((N : ℚ) + 5))) ^ n
        ≤ 1 + (2 ^ n - 1) * (1 / (10 * ((N : ℚ) + 5))) :=
      pow_one_add_le n _ hδ0.le hδ1
    have key : (base + n) * ((2 ^ n - 1) * (1 / (10 * ((N : ℚ) + 5)))) < ε := by
      rw [div_lt_iff₀ (by positivity)] at hN
      have hpos : (0 : ℚ) < 10 * ((N : ℚ) + 5) := by positivity
      rw [mul_one_div, ← mul_div_assoc, div_lt_iff₀ hpos]
      nlinarith
    nlinarith [mul_le_mul_of_nonneg_left hpow hbn.le]

/-- C7 witness: the three parts at base = 100, n = 1, concrete monolithic
counts and ε = 2. -/
theorem C7_witness :
    calculate_forage_requirement 100 1 1 < calculate_forage_requirement 100 1 0
    ∧ (100 : ℚ) + (1 : ℕ) < calculate_forage_requirement 100 1 0
    ∧ ∃ m : ℕ, calculate_forage_requirement 100 1 m < 100 + (1 : ℕ) + 2 := by
  obtain ⟨ha, hb, hc⟩ := C7_requirement_monolithic 100 (by norm_num) 1 Nat.one_pos
  exact ⟨ha 0 1 Nat.one_pos, hb 0, hc 2 (by norm_num)⟩

/-- C8: team construction errors exactly when the team is too large or a pet
lacks power while no manual speed is set; the two spec examples fail and a
well-formed team is constructed without error. -/
theorem C8_team_validation :
    (∀ (name : String) (pets : List Pet) (terr : Option String) (ms : Option ℚ),
      (∃ msg, mkTeam name pets terr ms = Except.error msg) ↔
        (MAX_TEAM_SIZE < pets.length ∨ (ms = none ∧ ∃ p ∈ pets, p.power = none)))
    ∧ (∃ msg, mkTeam "T5" (List.replicate 5 petForager1) none none = Except.error msg)
    ∧ (∃ msg, mkTeam "TN" [petNoPower] none none = Except.error msg)
    ∧ mkTeam "TG" [petForager1] none none
        = Except.ok { name := "TG", pets := [petForager1] } := by
  refine ⟨?_, ⟨_, rfl⟩, ⟨_, rfl⟩, rfl⟩
  intro name pets terr ms
  unfold mkTeam
  split_ifs with h1 h2
  · exact ⟨fun _ => Or.inl h1, fun _ => ⟨_, rfl⟩⟩
  · rw [Bool.and_eq_true, Option.isNone_iff_eq_none, List.any_eq_true] at h2
    simp only [Option.isNone_iff_eq_none] at h2
    exact ⟨fun _ => Or.inr h2, fun _ => ⟨_, rfl⟩⟩
  · constructor
    · rintro ⟨msg, hmsg⟩
      exact hmsg.elim
    · rintro (hlen | hpow)
      · exact absurd hlen h1
      · refine absurd ?_ h2
        rw [Bool.and_eq_true, Option.isNone_iff_eq_none, List.any_eq_true]
        obtain ⟨hms, p, hp, hppow⟩ := hpow
        exact ⟨hms, p, hp, by simp [hppow]⟩

/-! Helper lemmas about time formatting. -/

theorem rat_floor_eq (q : ℚ) : q.floor = ⌊q⌋ :=
  (Rat.floor_def' q).trans Rat.floor_def.symm

theorem pyRound_nonneg {q : ℚ} (hq : 0 ≤ q) : 0 ≤ pyRound q := by
  simp only [pyRound, rat_floor_eq]
  have hf : 0 ≤ ⌊q⌋ := Int.floor_nonneg.2 hq
  split_ifs <;> omega

theorem pyRound_nearest (q : ℚ) : |(pyRound q : ℚ) - q| ≤ 1 / 2 := by
  simp only [pyRound, rat_floor_eq]
  have h1 : (⌊q⌋ : ℚ) ≤ q := Int.floor_le q
  have h2 : q < ⌊q⌋ + 1 := Int.lt_floor_add_one q
  split_ifs with ha hb hc
  · rw [abs_le]
    constructor <;> linarith
  · rw [abs_le]
    push_cast
    constructor <;> linarith
  · rw [abs_le]
    constructor <;> linarith
  · rw [abs_le]
    push_cast
    constructor <;> linarith

theorem format_time_eq_spec (hours : ℚ) (h0 : 0 ≤ hours) :
    format_time hours = specFormatTime hours := by
  have hnn : 0 ≤ pyRound (hours * 3600) := pyRound_nonneg (by positivity)
  obtain ⟨n, hn⟩ : ∃ n : ℕ, pyRound (hours * 3600) = (n : ℤ) :=
    ⟨(pyRound (hours * 3600)).toNat, (Int.toNat_of_nonneg hnn).symm⟩
  simp only [format_time, specFormatTime, hn, Int.toNat_natCast]
  have h1 : (n : ℤ) / 3600 = ((n / 3600 : ℕ) : ℤ) := by omega
  have h2 : (n : ℤ) % 3600 = ((n % 3600 : ℕ) : ℤ) := by omega
  have h3 : ((n % 3600 : ℕ) : ℤ) / 60 = ((n % 3600 / 60 : ℕ) : ℤ) := by omega
  have h4 : ((n % 3600 : ℕ) : ℤ) % 60 = ((n % 3600 % 60 : ℕ) : ℤ) := by omega
  rw [h1, h2, h3, h4]
  have hstr : ∀ k : ℕ, toString ((k : ℕ) : ℤ) = toString k := fun _ => rfl
  simp only [ne_eq, Int.natCast_eq_zero, hstr]

/-- C9: rounding is to a nearest integer number of seconds, the rendering
agrees with the spec's divmod-chain description for all nonnegative hours,
and the three spec examples hold. -/
theorem C9_format_time :
    (∀ q : ℚ, |(pyRound q : ℚ) - q| ≤ 1 / 2)
    ∧ (∀ hours : ℚ, 0 ≤ hours → format_time hours = specFormatTime hours)
    ∧ format_time (3 / 2) = "1h 30m"
    ∧ format_time (167 / 10000) = "1m"
    ∧ format_time 0 = "0s" := by
  refine ⟨pyRound_nearest, format_time_eq_spec, ?_, ?_, ?_⟩
  · norm_num [format_time, pyRound, rat_floor_eq]
    rfl
  · norm_num [format_time, pyRound, rat_floor_eq]
    rfl
  · norm_num [format_time, pyRound, rat_floor_eq]

/-! Helper lemmas about the simulation loop. -/

theorem init_teamTen : init_state teamTen
    = { spice := 0, fills := 0, progress := 0, speed := 10,
        alchemic := 0, monolithic := 0 } := by
  norm_num [init_state, teamTen, Team.speed, petForager10, gForager, count_genetic,
    ALCHEMIC, MONOLITHIC, List.filter]
  decide

theorem init_teamOne : init_state teamOne
    = { spice := 0, fills := 0, progress := 0, speed := 1,
        alchemic := 0, monolithic := 0 } := by
  norm_num [init_state, teamOne, Team.speed, petForager1, gForager, count_genetic,
    ALCHEMIC, MONOLITHIC, List.filter]
  decide

theorem init_teamZero : init_state teamZero
    = { spice := 0, fills := 0, progress := 0, speed := 0,
        alchemic := 0, monolithic := 0 } := by
  norm_num [init_state, teamZero, Team.speed, count_genetic, List.filter]

theorem simBody_some {base maxH : ℚ} {s s' : Sim}
    (h : simBody base maxH s = some s') :
    ∃ dt, optMin (next_fill_time base s.a) (next_fill_time base s.b) = some dt
      ∧ s.t + dt ≤ maxH
      ∧ s'.a = stepTeam base dt s.a
      ∧ s'.b = stepTeam base dt s.b
      ∧ s'.t = s.t + dt
      ∧ s'.timeline = s.timeline ++ [s.t + dt]
      ∧ s'.a_yield = s.a_yield ++ [(stepTeam base dt s.a).spice]
      ∧ s'.b_yield = s.b_yield ++ [(stepTeam base dt s.b).spice]
      ∧ s'.breakeven
          = (if s.breakeven = none
                ∧ (stepTeam base dt s.a).spice < (stepTeam base dt s.b).spice
             then some (s.t + dt) else s.breakeven) := by
  cases hmin : optMin (next_fill_time base s.a) (next_fill_time base s.b) with
  | none => simp [simBody, hmin] at h
  | some dt =>
    simp only [simBody, hmin] at h
    by_cases ht : maxH < s.t + dt
    · simp [if_pos ht] at h
    · rw [if_neg ht, Option.some_inj] at h
      subst h
      exact ⟨dt, rfl, not_lt.1 ht, rfl, rfl, rfl, rfl, rfl, rfl, rfl⟩

theorem simLoop_no_speed (base maxH : ℚ) (stopAt : Bool) (fuel : ℕ) (s : Sim)
    (ha : s.a.speed ≤ 0) (hb : s.b.speed ≤ 0) :
    simLoop base maxH stopAt fuel s = [] := by
  cases fuel with
  | zero => rfl
  | succ n =>
    have hbody : simBody base maxH s = none := by
      simp [simBody, next_fill_time, ha, hb, optMin]
    simp [simLoop, hbody]

theorem simLoop_head_zero (base maxH : ℚ) (stopAt : Bool) (fuel : ℕ) :
    ∀ s : Sim,
      s.timeline.head? = some 0 → s.a_yield.head? = some 0 →
      s.b_yield.head? = some 0 →
      ∀ e ∈ simLoop base maxH stopAt fuel s,
        e.1.head? = some 0 ∧ e.2.1.head? = some 0 ∧ e.2.2.1.head? = some 0 := by
  induction fuel with
  | zero => intro s h1 h2 h3 e he; simp [simLoop] at he
  | succ n ih =>
    intro s h1 h2 h3 e he
    by_cases ht : s.t ≤ maxH
    · cases hb : simBody base maxH s with
      | none => simp [simLoop, ht, hb] at he
      | some s2 =>
        simp only [simLoop, ht, if_true, hb] at he
        obtain ⟨dt, hmin, hle, ha', hb', ht', htl, hay, hby, hbk⟩ := simBody_some hb
        have h1' : s2.timeline.head? = some 0 := by
          rw [htl, List.head?_append, h1]; rfl
        have h2' : s2.a_yield.head? = some 0 := by
          rw [hay, List.head?_append, h2]; rfl
        have h3' : s2.b_yield.head? = some 0 := by
          rw [hby, List.head?_append, h3]; rfl
        split_ifs at he with hstop
        · rw [List.mem_singleton] at he
          subst he
          exact ⟨h1', h2', h3'⟩
        · rcases List.mem_cons.1 he with rfl | he'
          · exact ⟨h1', h2', h3'⟩
          · exact ih s2 h1' h2' h3' e he'
    · simp [simLoop, ht] at he

/-- C1 (amended): every yielded tuple carries the initial zero snapshot as the
first entry of each of its three history lists; nothing is claimed about the
tuple sequence being non-empty or about its first breakeven value. -/
theorem C1_initial_snapshot (territory : Territory) (team_a team_b : Team)
    (max_hours : ℚ) (stop_at : Bool) (fuel : ℕ) :
    ∀ e ∈ simulate_progressive territory team_a team_b max_hours stop_at fuel,
      e.1.head? = some 0 ∧ e.2.1.head? = some 0 ∧ e.2.2.1.head? = some 0 := by
  intro e he
  exact simLoop_head_zero _ _ _ fuel (init_sim team_a team_b) rfl rfl rfl e he

/-- C1 counterexample: with valid teams and positive max_hours the yielded
sequence can be empty (speed 10 against forage 100 within one hour produces no
event), and when it is non-empty its first tuple's breakeven can already be
set (a faster team B overtakes at the very first event), so the claimed
non-emptiness and first-element breakeven = None both fail. -/
theorem C1_counterexample :
    simulate_progressive tGrass teamTen teamTen 1 true 10 = []
    ∧ (simulate_progressive tSmall teamOne teamTen 48 true 10).head?
        = some ([0, 1], [0, 0], [0, 1], some 1)
    ∧ mkTeam "A" [petForager10] none none = Except.ok teamTen
    ∧ mkTeam "B" [petForager1] none none = Except.ok teamOne := by
  refine ⟨?_, ?_, rfl, rfl⟩
  · norm_num [simulate_progressive, simLoop, simBody, init_sim, init_teamTen,
      next_fill_time, optMin, stepTeam, TState.req, calculate_forage_requirement,
      emit, tGrass, min_def, Option.some_ne_none]
  · norm_num [simulate_progressive, simLoop, simBody, init_sim, init_teamOne,
      init_teamTen, next_fill_time, optMin, stepTeam, TState.req,
      calculate_forage_requirement, emit, tSmall, min_def, Option.some_ne_none]

/-- C1 witness: the amended statement applied to a run that does yield a
tuple. -/
theorem C1_witness :
    (([0, 10], [0, 1], [0, 1], none) : Emission).1.head? = some 0
    ∧ (([0, 10], [0, 1], [0, 1], none) : Emission).2.1.head? = some 0
    ∧ (([0, 10], [0, 1], [0, 1], none) : Emission).2.2.1.head? = some 0 := by
  have hmem : (([0, 10], [0, 1], [0, 1], none) : Emission)
      ∈ simulate_progressive tGrass teamTen teamTen 48 true 1 := by
    norm_num [simulate_progressive, simLoop, simBody, init_sim, init_teamTen,
      next_fill_time, optMin, stepTeam, TState.req, calculate_forage_requirement,
      emit, tGrass, min_def, Option.some_ne_none]
  exact C1_initial_snapshot tGrass teamTen teamTen 48 true 1 _ hmem

/-- C2 (amended): when both teams have speed ≤ 0 the generator raises no
error and yields no tuples at all: the loop breaks on its first iteration
(dt is infinite), so the run is the empty sequence, not a one-element one. -/
theorem C2_zero_speed_silent (territory : Territory) (team_a team_b : Team)
    (max_hours : ℚ) (stop_at : Bool) (fuel : ℕ)
    (ha : team_a.speed ≤ 0) (hb : team_b.speed ≤ 0) :
    simulate_progressive territory team_a team_b max_hours stop_at fuel = [] := by
  apply simLoop_no_speed
  · exact ha
  · exact hb

/-- C2 counterexample: with both speeds zero the run yields zero tuples, not
exactly one as claimed. -/
theorem C2_counterexample :
    simulate_progressive tGrass teamZero teamZero 48 true 50 = []
    ∧ (simulate_progressive tGrass teamZero teamZero 48 true 50).length ≠ 1 := by
  have h : simulate_progressive tGrass teamZero teamZero 48 true 50 = [] := by
    norm_num [simulate_progressive, simLoop, simBody, init_sim, init_teamZero,
      next_fill_time, optMin, emit]
  rw [h]
  simp

/-- C2 witness: the amended statement at a concrete zero-speed pair. -/
theorem C2_witness :
    teamZero.speed ≤ 0
    ∧ simulate_progressive tGrass teamZero teamZero 48 true 50 = [] := by
  have hs : teamZero.speed ≤ 0 := by norm_num [Team.speed, teamZero]
  exact ⟨hs, C2_zero_speed_silent tGrass teamZero teamZero 48 true 50 hs hs⟩

theorem simLoop_timeline_le (base maxH : ℚ) (stopAt : Bool) (fuel : ℕ) :
    ∀ s : Sim, (∀ x ∈ s.timeline, x ≤ maxH) →
      ∀ e ∈ simLoop base maxH stopAt fuel s, ∀ x ∈ e.1, x ≤ maxH := by
  induction fuel with
  | zero => intro s hs e he; simp [simLoop] at he
  | succ n ih =>
    intro s hs e he
    by_cases ht : s.t ≤ maxH
    · cases hbody : simBody base maxH s with
      | none => simp [simLoop, ht, hbody] at he
      | some s2 =>
        simp only [simLoop, ht, if_true, hbody] at he
        obtain ⟨dt, _, hle, _, _, _, htl2, _, _, _⟩ := simBody_some hbody
        have hs2 : ∀ x ∈ s2.timeline, x ≤ maxH := by
          rw [htl2]
          intro x hx
          rcases List.mem_append.1 hx with hx | hx
          · exact hs x hx
          · rw [List.mem_singleton] at hx
            subst hx
            exact hle
        split_ifs at he with hstop
        · rw [List.mem_singleton] at he
          subst he
          exact hs2
        · rcases List.mem_cons.1 he with rfl | he'
          · exact hs2
          · exact ih s2 hs2 e he'
    · simp [simLoop, ht] at he

/-- C5: every time value in every yielded timeline is at most max_hours; the
overshoot step is discarded before being yielded. -/
theorem C5_time_budget (territory : Territory) (team_a team_b : Team)
    (max_hours : ℚ) (stop_at : Bool) (fuel : ℕ) :
    ∀ e ∈ simulate_progressive territory team_a team_b max_hours stop_at fuel,
      ∀ x ∈ e.1, x ≤ max_hours := by
  intro e he x hx
  by_cases h0 : (0 : ℚ) ≤ max_hours
  · refine simLoop_timeline_le _ _ _ fuel _ ?_ e he x hx
    intro y hy
    simp only [init_sim] at hy
    rw [List.mem_singleton] at hy
    subst hy
    exact h0
  · exfalso
    cases fuel with
    | zero => simp [simulate_progressive, simLoop] at he
    | succ n => simp [simulate_progressive, simLoop, init_sim, h0] at he

/-- C5 witness: the bound applied to a concrete yielded step. -/
theorem C5_witness : (10 : ℚ) ≤ 48 := by
  have hmem : (([0, 10], [0, 1], [0, 1], none) : Emission)
      ∈ simulate_progressive tGrass teamTen teamTen 48 true 1 := by
    norm_num [simulate_progressive, simLoop, simBody, init_sim, init_teamTen,
      next_fill_time, optMin, stepTeam, TState.req, calculate_forage_requirement,
      emit, tGrass, min_def, Option.some_ne_none]
  have hx : (10 : ℚ) ∈ (([0, 10], [0, 1], [0, 1], none) : Emission).1 := by
    simp
  exact C5_time_budget tGrass teamTen teamTen 48 true 1 _ hmem 10 hx

theorem simLoop_symmetric (base maxH : ℚ) (stopAt : Bool) (fuel : ℕ) :
    ∀ s : Sim, s.a = s.b → s.a_yield = s.b_yield → s.breakeven = none →
      ∀ e ∈ simLoop base maxH stopAt fuel s, e.2.1 = e.2.2.1 ∧ e.2.2.2 = none := by
  induction fuel with
  | zero => intro s hab hy hbk e he; simp [simLoop] at he
  | succ n ih =>
    intro s hab hy hbk e he
    by_cases ht : s.t ≤ maxH
    · cases hbody : simBody base maxH s with
      | none => simp [simLoop, ht, hbody] at he
      | some s2 =>
        simp only [simLoop, ht, if_true, hbody] at he
        obtain ⟨dt, _, _, ha2, hb2, _, _, hay2, hby2, hbk2⟩ := simBody_some hbody
        have hab2 : s2.a = s2.b := by rw [ha2, hb2, hab]
        have heq : (stepTeam base dt s.a).spice = (stepTeam base dt s.b).spice := by
          rw [hab]
        have hy2 : s2.a_yield = s2.b_yield := by rw [hay2, hby2, hy, heq]
        have hbk2' : s2.breakeven = none := by
          rw [hbk2, if_neg, hbk]
          rintro ⟨-, hlt⟩
          rw [hab] at hlt
          exact lt_irrefl _ hlt
        have hcond : ¬ (stopAt = true ∧ s.breakeven = none ∧ s2.breakeven ≠ none) := by
          rintro ⟨-, -, hne⟩
          exact hne hbk2'
        rw [if_neg hcond] at he
        rcases List.mem_cons.1 he with rfl | he'
        · exact ⟨hy2, hbk2'⟩
        · exact ih s2 hab2 hy2 hbk2' e he'
    · simp [simLoop, ht] at he

/-- C6: with equal (nonzero) speeds and equal Alchemic/Monolithic counts the
two cumulative yield histories coincide in every yielded tuple and breakeven
is never set. -/
theorem C6_equal_teams (territory : Territory) (team_a team_b : Team)
    (max_hours : ℚ) (stop_at : Bool) (fuel : ℕ)
    (hspeed : team_a.speed = team_b.speed) (hnz : team_a.speed ≠ 0)
    (halch : count_genetic team_a ALCHEMIC = count_genetic team_b ALCHEMIC)
    (hmono : count_genetic team_a MONOLITHIC = count_genetic team_b MONOLITHIC) :
    ∀ e ∈ simulate_progressive territory team_a team_b max_hours stop_at fuel,
      e.2.1 = e.2.2.1 ∧ e.2.2.2 = none := by
  intro e he
  refine simLoop_symmetric _ _ _ fuel _ ?_ rfl rfl e he
  simp [init_sim, init_state, hspeed, halch, hmono]

/-- C6 witness: equal concrete teams and a concrete yielded tuple. -/
theorem C6_witness :
    teamTen.speed = teamTen.speed ∧ teamTen.speed ≠ 0
    ∧ (([0, 10], [0, 1], [0, 1], none) : Emission).2.1
        = (([0, 10], [0, 1], [0, 1], none) : Emission).2.2.1
    ∧ (([0, 10], [0, 1], [0, 1], none) : Emission).2.2.2 = none := by
  have hnz : teamTen.speed ≠ 0 := by
    norm_num [Team.speed, teamTen, petForager10]
  have hmem : (([0, 10], [0, 1], [0, 1], none) : Emission)
      ∈ simulate_progressive tGrass teamTen teamTen 48 true 1 := by
    norm_num [simulate_progressive, simLoop, simBody, init_sim, init_teamTen,
      next_fill_time, optMin, stepTeam, TState.req, calculate_forage_requirement,
      emit, tGrass, min_def, Option.some_ne_none]
  obtain ⟨h1, h2⟩ :=
    C6_equal_teams tGrass teamTen teamTen 48 true 1 rfl hnz rfl rfl _ hmem
  exact ⟨rfl, hnz, h1, h2⟩

theorem req_nonneg {base : ℚ} (hb : 0 ≤ base) (s : TState) : 0 ≤ TState.req base s := by
  rw [TState.req, req_eq]
  have h1 : (0 : ℚ) ≤ base + s.fills := add_nonneg hb (Nat.cast_nonneg _)
  have h2 : (0 : ℚ) ≤ (1 + 1 / (10 * ((s.monolithic : ℚ) + 5))) ^ s.fills := by positivity
  exact mul_nonneg h1 h2

theorem req_pos {base : ℚ} (hb : 0 < base) (s : TState) : 0 < TState.req base s := by
  rw [TState.req, req_eq]
  have h0 : (0 : ℚ) ≤ (s.fills : ℚ) := Nat.cast_nonneg _
  have h2 : (0 : ℚ) < (1 + 1 / (10 * ((s.monolithic : ℚ) + 5))) ^ s.fills := by positivity
  exact mul_pos (by linarith) h2

theorem stepTeam_fields (base dt : ℚ) (s : TState) :
    (stepTeam base dt s).speed = s.speed
    ∧ (stepTeam base dt s).alchemic = s.alchemic
    ∧ (stepTeam base dt s).monolithic = s.monolithic := by
  simp only [stepTeam]
  split_ifs <;> exact ⟨rfl, rfl, rfl⟩

theorem stepTeam_inv_le {base : ℚ} (hb : 0 ≤ base) (dt : ℚ) (s : TState) :
    s.progress ≤ TState.req base s →
    (stepTeam base dt s).progress ≤ TState.req base (stepTeam base dt s) := by
  intro _
  simp only [stepTeam]
  split_ifs with h
  · exact req_nonneg hb _
  · exact (not_le.1 h).le

theorem stepTeam_inv_lt {base : ℚ} (hb : 0 < base) (dt : ℚ) (s : TState) :
    s.progress < TState.req base s →
    (stepTeam base dt s).progress < TState.req base (stepTeam base dt s) := by
  intro _
  simp only [stepTeam]
  split_ifs with h
  · exact req_pos hb _
  · exact not_le.1 h

theorem stepTeam_spice_le (base dt : ℚ) (s : TState) :
    s.spice ≤ (stepTeam base dt s).spice := by
  simp only [stepTeam]
  split_ifs with h
  · have h0 : (0 : ℚ) ≤ (s.alchemic : ℚ) := Nat.cast_nonneg _
    show s.spice ≤ s.spice + (1 + 1 / 2 * (s.alchemic : ℚ))
    linarith
  · exact le_refl _

theorem next_fill_time_nonneg {base : ℚ} {s : TState} {v : ℚ}
    (hs : s.progress ≤ TState.req base s)
    (h : next_fill_time base s = some v) : 0 ≤ v := by
  simp only [next_fill_time] at h
  split_ifs at h with hsp
  rw [Option.some_inj] at h
  subst h
  exact div_nonneg (by linarith) (lt_of_not_ge hsp).le

theorem next_fill_time_pos {base : ℚ} {s : TState} {v : ℚ}
    (hs : s.progress < TState.req base s)
    (h : next_fill_time base s = some v) : 0 < v := by
  simp only [next_fill_time] at h
  split_ifs at h with hsp
  rw [Option.some_inj] at h
  subst h
  exact div_pos (by linarith) (lt_of_not_ge hsp)

theorem optMin_cases {x y : Option ℚ} {d : ℚ} (h : optMin x y = some d) :
    x = some d ∨ y = some d := by
  match x, y with
  | none, none => simp [optMin] at h
  | none, some b =>
    simp [optMin] at h
    right
    rw [h]
  | some a, none =>
    simp [optMin] at h
    left
    rw [h]
  | some a, some b =>
    simp [optMin] at h
    rcases le_total a b with hab | hab
    · left
      rw [← h, min_eq_left hab]
    · right
      rw [← h, min_eq_right hab]

theorem simLoop_mono {base : ℚ} (hb : 0 ≤ base) (maxH : ℚ) (stopAt : Bool) (fuel : ℕ) :
    ∀ s : Sim,
      s.a.progress ≤ TState.req base s.a →
      s.b.progress ≤ TState.req base s.b →
      s.timeline.Pairwise (· ≤ ·) → (∀ x ∈ s.timeline, x ≤ s.t) →
      s.a_yield.Pairwise (· ≤ ·) → (∀ x ∈ s.a_yield, x ≤ s.a.spice) →
      s.b_yield.Pairwise (· ≤ ·) → (∀ x ∈ s.b_yield, x ≤ s.b.spice) →
      ∀ e ∈ simLoop base maxH stopAt fuel s,
        e.1.Pairwise (· ≤ ·) ∧ e.2.1.Pairwise (· ≤ ·) ∧ e.2.2.1.Pairwise (· ≤ ·) := by
  induction fuel with
  | zero => intro s _ _ _ _ _ _ _ _ e he; simp [simLoop] at he
  | succ n ih =>
    intro s hpa hpb htl htlt hay haya hby hbyb e he
    by_cases ht : s.t ≤ maxH
    · cases hbody : simBody base maxH s with
      | none => simp [simLoop, ht, hbody] at he
      | some s2 =>
        simp only [simLoop, ht, if_true, hbody] at he
        obtain ⟨dt, hmin, hle, ha2, hb2, ht2, htl2, hay2, hby2, hbk2⟩ := simBody_some hbody
        have hdt : 0 ≤ dt := by
          rcases optMin_cases hmin with hx | hx
          · exact next_fill_time_nonneg hpa hx
          · exact next_fill_time_nonneg hpb hx
        have hpa2 : s2.a.progress ≤ TState.req base s2.a := by
          rw [ha2]
          exact stepTeam_inv_le hb dt s.a hpa
        have hpb2 : s2.b.progress ≤ TState.req base s2.b := by
          rw [hb2]
          exact stepTeam_inv_le hb dt s.b hpb
        have hsa : s.a.spice ≤ (stepTeam base dt s.a).spice := stepTeam_spice_le base dt s.a
        have hsb : s.b.spice ≤ (stepTeam base dt s.b).spice := stepTeam_spice_le base dt s.b
        have htl2p : s2.timeline.Pairwise (· ≤ ·) := by
          rw [htl2, List.pairwise_append]
          refine ⟨htl, List.pairwise_singleton _ _, ?_⟩
          intro u hu v hv
          rw [List.mem_singleton] at hv
          subst hv
          have := htlt u hu
          linarith
        have htlt2 : ∀ x ∈ s2.timeline, x ≤ s2.t := by
          rw [htl2, ht2]
          intro x hx
          rcases List.mem_append.1 hx with hx | hx
          · have := htlt x hx
            linarith
          · rw [List.mem_singleton] at hx
            subst hx
            exact le_refl _
        have hay2p : s2.a_yield.Pairwise (· ≤ ·) := by
          rw [hay2, List.pairwise_append]
          refine ⟨hay, List.pairwise_singleton _ _, ?_⟩
          intro u hu v hv
          rw [List.mem_singleton] at hv
          subst hv
          exact (haya u hu).trans hsa
        have haya2 : ∀ x ∈ s2.a_yield, x ≤ s2.a.spice := by
          rw [hay2, ha2]
          intro x hx
          rcases List.mem_append.1 hx with hx | hx
          · exact (haya x hx).trans hsa
          · rw [List.mem_singleton] at hx
            subst hx
            exact le_refl _
        have hby2p : s2.b_yield.Pairwise (· ≤ ·) := by
          rw [hby2, List.pairwise_append]
          refine ⟨hby, List.pairwise_singleton _ _, ?_⟩
          intro u hu v hv
          rw [List.mem_singleton] at hv
          subst hv
          exact (hbyb u hu).trans hsb
        have hbyb2 : ∀ x ∈ s2.b_yield, x ≤ s2.b.spice := by
          rw [hby2, hb2]
          intro x hx
          rcases List.mem_append.1 hx with hx | hx
          · exact (hbyb x hx).trans hsb
          · rw [List.mem_singleton] at hx
            subst hx
            exact le_refl _
        split_ifs at he with hstop
        · rw [List.mem_singleton] at he
          subst he
          exact ⟨htl2p, hay2p, hby2p⟩
        · rcases List.mem_cons.1 he with rfl | he'
          · exact ⟨htl2p, hay2p, hby2p⟩
          · exact ih s2 hpa2 hpb2 htl2p htlt2 hay2p haya2 hby2p hbyb2 e he'
    · simp [simLoop, ht] at he

theorem simLoop_strict {base : ℚ} (hb : 0 < base) (maxH : ℚ) (stopAt : Bool) (fuel : ℕ) :
    ∀ s : Sim,
      s.a.progress < TState.req base s.a →
      s.b.progress < TState.req base s.b →
      s.timeline.Pairwise (· < ·) → (∀ x ∈ s.timeline, x ≤ s.t) →
      ∀ e ∈ simLoop base maxH stopAt fuel s, e.1.Pairwise (· < ·) := by
  induction fuel with
  | zero => intro s _ _ _ _ e he; simp [simLoop] at he
  | succ n ih =>
    intro s hpa hpb htl htlt e he
    by_cases ht : s.t ≤ maxH
    · cases hbody : simBody base maxH s with
      | none => simp [simLoop, ht, hbody] at he
      | some s2 =>
        simp only [simLoop, ht, if_true, hbody] at he
        obtain ⟨dt, hmin, hle, ha2, hb2, ht2, htl2, hay2, hby2, hbk2⟩ := simBody_some hbody
        have hdt : 0 < dt := by
          rcases optMin_cases hmin with hx | hx
          · exact next_fill_time_pos hpa hx
          · exact next_fill_time_pos hpb hx
        have hpa2 : s2.a.progress < TState.req base s2.a := by
          rw [ha2]
          exact stepTeam_inv_lt hb dt s.a hpa
        have hpb2 : s2.b.progress < TState.req base s2.b := by
          rw [hb2]
          exact stepTeam_inv_lt hb dt s.b hpb
        have htl2p : s2.timeline.Pairwise (· < ·) := by
          rw [htl2, List.pairwise_append]
          refine ⟨htl, List.pairwise_singleton _ _, ?_⟩
          intro u hu v hv
          rw [List.mem_singleton] at hv
          subst hv
          have := htlt u hu
          linarith
        have htlt2 : ∀ x ∈ s2.timeline, x ≤ s2.t := by
          rw [htl2, ht2]
          intro x hx
          rcases List.mem_append.1 hx with hx | hx
          · have := htlt x hx
            linarith
          · rw [List.mem_singleton] at hx
            subst hx
            exact le_refl _
        split_ifs at he with hstop
        · rw [List.mem_singleton] at he
          subst he
          exact htl2p
        · rcases List.mem_cons.1 he with rfl | he'
          · exact htl2p
          · exact ih s2 hpa2 hpb2 htl2p htlt2 e he'
    · simp [simLoop, ht] at he

/-- C4 (amended): the yield histories are always non-decreasing and the
timeline always non-decreasing; the timeline is strictly increasing whenever
the territory's forage is positive (at forage = 0 the first step repeats
t = 0). -/
theorem C4_monotone (territory : Territory) (team_a team_b : Team)
    (max_hours : ℚ) (stop_at : Bool) (fuel : ℕ) :
    (∀ e ∈ simulate_progressive territory team_a team_b max_hours stop_at fuel,
        e.1.Pairwise (· ≤ ·) ∧ e.2.1.Pairwise (· ≤ ·) ∧ e.2.2.1.Pairwise (· ≤ ·))
    ∧ (0 < territory.forage →
        ∀ e ∈ simulate_progressive territory team_a team_b max_hours stop_at fuel,
          e.1.Pairwise (· < ·)) := by
  constructor
  · intro e he
    refine simLoop_mono (Nat.cast_nonneg _) _ _ fuel _ ?_ ?_ ?_ ?_ ?_ ?_ ?_ ?_ e he
    · show (0 : ℚ) ≤ TState.req (territory.forage : ℚ) (init_state team_a)
      exact req_nonneg (Nat.cast_nonneg _) _
    · show (0 : ℚ) ≤ TState.req (territory.forage : ℚ) (init_state team_b)
      exact req_nonneg (Nat.cast_nonneg _) _
    · simp [init_sim]
    · simp [init_sim]
    · simp [init_sim]
    · simp [init_sim, init_state]
    · simp [init_sim]
    · simp [init_sim, init_state]
  · intro hf e he
    have hbase : (0 : ℚ) < (territory.forage : ℚ) := by exact_mod_cast hf
    refine simLoop_strict hbase _ _ fuel _ ?_ ?_ ?_ ?_ e he
    · show (0 : ℚ) < TState.req (territory.forage : ℚ) (init_state team_a)
      have : TState.req (territory.forage : ℚ) (init_state team_a)
          = (territory.forage : ℚ) := by
        simp [TState.req, init_state, calculate_forage_requirement]
      rw [this]
      exact hbase
    · show (0 : ℚ) < TState.req (territory.forage : ℚ) (init_state team_b)
      have : TState.req (territory.forage : ℚ) (init_state team_b)
          = (territory.forage : ℚ) := by
        simp [TState.req, init_state, calculate_forage_requirement]
      rw [this]
      exact hbase
    · simp [init_sim]
    · simp [init_sim]

/-- C4 counterexample: at forage = 0 the first event happens at dt = 0, so the
first yielded timeline is [0, 0], which is not strictly increasing, refuting
the claim for forage ≥ 0. -/
theorem C4_counterexample :
    simulate_progressive tVoid teamOne teamOne 48 true 1
      = [([0, 0], [0, 1], [0, 1], none)]
    ∧ ¬ ([(0 : ℚ), 0].Pairwise (· < ·)) := by
  constructor
  · norm_num [simulate_progressive, simLoop, simBody, init_sim, init_teamOne,
      next_fill_time, optMin, stepTeam, TState.req, calculate_forage_requirement,
      emit, tVoid, min_def, Option.some_ne_none]
  · simp

theorem simLoop_bk_some (base maxH : ℚ) (stopAt : Bool) (fuel : ℕ) :
    ∀ (s : Sim) (τ : ℚ), s.breakeven = some τ →
      ∀ e ∈ simLoop base maxH stopAt fuel s, e.2.2.2 = some τ := by
  induction fuel with
  | zero => intro s τ hbk e he; simp [simLoop] at he
  | succ n ih =>
    intro s τ hbk e he
    by_cases ht : s.t ≤ maxH
    · cases hbody : simBody base maxH s with
      | none => simp [simLoop, ht, hbody] at he
      | some s2 =>
        simp only [simLoop, ht, if_true, hbody] at he
        obtain ⟨dt, -, -, -, -, -, -, -, -, hbk2⟩ := simBody_some hbody
        have hbk2' : s2.breakeven = some τ := by
          rw [hbk2, if_neg, hbk]
          rintro ⟨h0, -⟩
          rw [hbk] at h0
          exact Option.noConfusion h0
        have hcond : ¬ (stopAt = true ∧ s.breakeven = none ∧ s2.breakeven ≠ none) := by
          rintro ⟨-, h0, -⟩
          rw [hbk] at h0
          exact Option.noConfusion h0
        rw [if_neg hcond] at he
        rcases List.mem_cons.1 he with rfl | he'
        · exact hbk2'
        · exact ih s2 τ hbk2' e he'
    · simp [simLoop, ht] at he

theorem simLoop_breakeven_decomp (base maxH : ℚ) (stopAt : Bool) (fuel : ℕ) :
    ∀ s : Sim, s.breakeven = none →
      ∃ pre post,
        simLoop base maxH stopAt fuel s = pre ++ post
        ∧ (∀ e ∈ pre, e.2.2.2 = none ∧ e.2.2.1.getLastD 0 ≤ e.2.1.getLastD 0)
        ∧ (post = []
           ∨ ∃ e₀ rest, post = e₀ :: rest
              ∧ e₀.2.2.2 = some (e₀.1.getLastD 0)
              ∧ e₀.2.1.getLastD 0 < e₀.2.2.1.getLastD 0
              ∧ (∀ e ∈ rest, e.2.2.2 = e₀.2.2.2)
              ∧ (stopAt = true → rest = [])) := by
  induction fuel with
  | zero =>
    intro s hbk
    exact ⟨[], [], by simp [simLoop], by simp, Or.inl rfl⟩
  | succ n ih =>
    intro s hbk
    by_cases ht : s.t ≤ maxH
    · cases hbody : simBody base maxH s with
      | none => exact ⟨[], [], by simp [simLoop, ht, hbody], by simp, Or.inl rfl⟩
      | some s2 =>
        obtain ⟨dt, -, -, ha2, hb2, ht2, htl2, hay2, hby2, hbk2⟩ := simBody_some hbody
        by_cases hdet : (stepTeam base dt s.a).spice < (stepTeam base dt s.b).spice
        · have hbk2' : s2.breakeven = some (s.t + dt) := by
            rw [hbk2, if_pos ⟨hbk, hdet⟩]
          have hne : s2.breakeven ≠ none := by
            rw [hbk2']
            exact Option.noConfusion
          have hloop : simLoop base maxH stopAt (n + 1) s
              = emit s2 :: (if stopAt = true then []
                            else simLoop base maxH stopAt n s2) := by
            simp only [simLoop, ht, if_true, hbody]
            by_cases hstop : stopAt = true
            · rw [if_pos ⟨hstop, hbk, hne⟩, if_pos hstop]
            · rw [if_neg (fun hc => hstop hc.1), if_neg hstop]
          refine ⟨[], _, by rw [hloop]; rfl, by simp,
            Or.inr ⟨emit s2, _, rfl, ?_, ?_, ?_, ?_⟩⟩
          · show s2.breakeven = some (s2.timeline.getLastD 0)
            rw [htl2, List.getLastD_concat, hbk2']
          · show s2.a_yield.getLastD 0 < s2.b_yield.getLastD 0
            rw [hay2, hby2, List.getLastD_concat, List.getLastD_concat]
            exact hdet
          · intro e he
            split_ifs at he with hstop
            · simp at he
            · show e.2.2.2 = s2.breakeven
              rw [hbk2']
              exact simLoop_bk_some base maxH stopAt n s2 (s.t + dt) hbk2' e he
          · intro hstop
            simp [hstop]
        · have hbk2' : s2.breakeven = none := by
            rw [hbk2, if_neg (fun hc => hdet hc.2)]
            exact hbk
          have hcond : ¬ (stopAt = true ∧ s.breakeven = none ∧ s2.breakeven ≠ none) := by
            rintro ⟨-, -, hne⟩
            exact hne hbk2'
          have hloop : simLoop base maxH stopAt (n + 1) s
              = emit s2 :: simLoop base maxH stopAt n s2 := by
            simp only [simLoop, ht, if_true, hbody]
            rw [if_neg hcond]
          obtain ⟨pre, post, hsplit, hpre, hpost⟩ := ih s2 hbk2'
          refine ⟨emit s2 :: pre, post, ?_, ?_, hpost⟩
          · rw [hloop, hsplit]
            rfl
          · intro e he
            rcases List.mem_cons.1 he with rfl | he'
            · refine ⟨hbk2', ?_⟩
              show s2.b_yield.getLastD 0 ≤ s2.a_yield.getLastD 0
              rw [hay2, hby2, List.getLastD_concat, List.getLastD_concat]
              exact not_lt.1 hdet
            · exact hpre e he'
    · exact ⟨[], [], by simp [simLoop, ht], by simp, Or.inl rfl⟩

theorem simLoop_stop_truncation (base maxH : ℚ) (fuel : ℕ) :
    ∀ s : Sim, s.breakeven = none →
      simLoop base maxH true fuel s
        = takeThrough (fun e => e.2.2.2.isSome) (simLoop base maxH false fuel s) := by
  induction fuel with
  | zero => intro s hbk; simp [simLoop, takeThrough]
  | succ n ih =>
    intro s hbk
    by_cases ht : s.t ≤ maxH
    · cases hbody : simBody base maxH s with
      | none => simp [simLoop, ht, hbody, takeThrough]
      | some s2 =>
        obtain ⟨dt, -, -, -, -, -, -, -, -, hbk2⟩ := simBody_some hbody
        by_cases hdet : (stepTeam base dt s.a).spice < (stepTeam base dt s.b).spice
        · have hbk2' : s2.breakeven = some (s.t + dt) := by
            rw [hbk2, if_pos ⟨hbk, hdet⟩]
          have hne : s2.breakeven ≠ none := by
            rw [hbk2']
            exact Option.noConfusion
          have hL : simLoop base maxH true (n + 1) s = [emit s2] := by
            simp only [simLoop, ht, if_true, hbody]
            rw [if_pos ⟨trivial, hbk, hne⟩]
          have hR : simLoop base maxH false (n + 1) s
              = emit s2 :: simLoop base maxH false n s2 := by
            simp only [simLoop, ht, if_true, hbody]
            rw [if_neg (fun hc => Bool.false_ne_true hc.1)]
          rw [hL, hR]
          simp [takeThrough, emit, hbk2']
        · have hbk2' : s2.breakeven = none := by
            rw [hbk2, if_neg (fun hc => hdet hc.2)]
            exact hbk
          have hL : simLoop base maxH true (n + 1) s
              = emit s2 :: simLoop base maxH true n s2 := by
            simp only [simLoop, ht, if_true, hbody]
            rw [if_neg (fun hc => hc.2.2 hbk2')]
          have hR : simLoop base maxH false (n + 1) s
              = emit s2 :: simLoop base maxH false n s2 := by
            simp only [simLoop, ht, if_true, hbody]
            rw [if_neg (fun hc => Bool.false_ne_true hc.1)]
          rw [hL, hR]
          simp only [takeThrough, emit, hbk2', Option.isNone_none, Option.isSome_none,
            Bool.false_eq_true, if_false]
          rw [ih s2 hbk2']
    · simp [simLoop, ht, takeThrough]

/-- C3: in any run the yielded tuples split into a prefix in which breakeven
is None and B's cumulative spice never strictly exceeds A's after update,
optionally followed by a first detection step whose breakeven equals that
step's time (the last timeline entry), after which every later tuple carries
the same breakeven; with stop_at_breakeven the detection step is the last
tuple, and the stopping run is exactly the non-stopping run truncated at (and
including) its first breakeven tuple. -/
theorem C3_breakeven (territory : Territory) (team_a team_b : Team)
    (max_hours : ℚ) (fuel : ℕ) (stop_at : Bool) :
    (∃ pre post,
        simulate_progressive territory team_a team_b max_hours stop_at fuel
          = pre ++ post
        ∧ (∀ e ∈ pre, e.2.2.2 = none ∧ e.2.2.1.getLastD 0 ≤ e.2.1.getLastD 0)
        ∧ (post = []
           ∨ ∃ e₀ rest, post = e₀ :: rest
              ∧ e₀.2.2.2 = some (e₀.1.getLastD 0)
              ∧ e₀.2.1.getLastD 0 < e₀.2.2.1.getLastD 0
              ∧ (∀ e ∈ rest, e.2.2.2 = e₀.2.2.2)
              ∧ (stop_at = true → rest = [])))
    ∧ simulate_progressive territory team_a team_b max_hours true fuel
        = takeThrough (fun e => e.2.2.2.isSome)
            (simulate_progressive territory team_a team_b max_hours false fuel) := by
  constructor
  · exact simLoop_breakeven_decomp _ _ stop_at fuel _ rfl
  · exact simLoop_stop_truncation _ _ fuel _ rfl

/-- C10: for a negative input no threshold of format_number matches, so the
value is rendered as its toward-zero truncated integer with no suffix. -/
theorem C10_format_number_negative (number : ℚ) (hneg : number < 0) :
    format_number number = toString (pyInt number) := by
  have key : ∀ k : ℕ, ¬ ((10 : ℚ) ^ k ≤ number) := by
    intro k hk
    have : (0 : ℚ) < (10 : ℚ) ^ k := by positivity
    linarith
  simp [format_number, thresholds, formatWith, key]

/-- C10 witness at the concrete negative input -5/2. -/
theorem C10_witness :
    (-5 / 2 : ℚ) < 0 ∧ format_number (-5 / 2) = toString (pyInt (-5 / 2)) :=
  ⟨by norm_num, C10_format_number_negative (-5 / 2) (by norm_num)⟩

end SpiceOptimizer
